import Mathlib

/-!
# Verification of notion-docs-sync

A shallow embedding of the two source files of the repository
(`notion_docs_sync/__init__.py` and `notion_docs_sync/markdown.py`) together
with proofs about the embedded definitions.

Conventions used throughout:
* Python lists become Lean `List`s; Python dicts become association lists kept
  in insertion order.
* Remote blocks (notion-py `Block` objects) become the inductive `RBlock`; the
  remote service's stateful operations become pure state transformations that
  additionally emit a `Mut` event for every remote mutation issued.
* Machine-independent data (strings, ids) is modelled with `String` and `Nat`.
-/

set_option autoImplicit false

namespace NotionDocsSync

/-! ## Inline style model (`markdown.py`) -/

/-- A styled text run: the Python token `[literal, styles]`, where every style
is itself a list `[marker, *args]` (see `apply_style` in `markdown.py`). -/
structure NToken where
  literal : String
  styles : List (List String)
deriving DecidableEq, Repr

/-- `markdown.py::apply_style`: wrap every run with one extra style marker,
preserving the existing markers. -/
def applyStyle (tokens : List NToken) (style : List String) : List NToken :=
  tokens.map fun t => ⟨t.literal, t.styles ++ [style]⟩

/-- The loop body of `markdown.py::merge_adjacent_tokens`: `prev` is the run
currently being accumulated; a following run with the same style list is merged
into it by literal concatenation, otherwise `prev` is emitted. -/
def mergeAdjacentGo : NToken → List NToken → List NToken
  | prev, [] => [prev]
  | prev, t :: ts =>
    if t.styles = prev.styles then
      mergeAdjacentGo ⟨prev.literal ++ t.literal, prev.styles⟩ ts
    else
      prev :: mergeAdjacentGo t ts

/-- `markdown.py::merge_adjacent_tokens`. -/
def mergeAdjacentTokens : List NToken → List NToken
  | [] => []
  | t :: ts => mergeAdjacentGo t ts

/-- `markdown.py::notion_as_plain_text`: concatenate the literals. -/
def notionAsPlainText (tokens : List NToken) : String :=
  String.join (tokens.map (·.literal))

/-! ## Block descriptors (`markdown.py` renderer output) -/

/-- The notion-py block classes appearing in the two source files
(`TextBlock`, `HeaderBlock`, ..., `CollectionViewBlock`, `PageBlock`).
`page` is the kind of `PageBlock` (remote `type == "page"`). -/
inductive BKind where
  | text
  | header
  | subheader
  | subsubheader
  | quote
  | code
  | divider
  | numberedList
  | bulletedList
  | image
  | collectionView
  | page
deriving DecidableEq, Repr

/-- One column of a rendered table schema: `render_table` emits
`{"name": h, "type": "text"}` per header cell. -/
structure SchemaCol where
  name : String
  type : String
deriving DecidableEq, Repr

/-- A block descriptor: the dictionary produced by the `NotionRenderer`.
Keys that a given block kind does not carry are represented by the empty
list (the Python code treats a missing key and a falsy value identically in
every place it looks at them: `pop(key, None)` followed by truthiness tests).
`props` holds the remaining scalar entries of the dictionary (`language`,
`title_plaintext`, `display_source`, `source`, ...). -/
inductive MDBlock where
  | mk (type : BKind) (title : List NToken) (props : List (String × String))
      (schema : List SchemaCol) (rows : List (List String))
      (children : List MDBlock)

def MDBlock.type : MDBlock → BKind
  | .mk ty _ _ _ _ _ => ty

def MDBlock.title : MDBlock → List NToken
  | .mk _ ti _ _ _ _ => ti

def MDBlock.props : MDBlock → List (String × String)
  | .mk _ _ pr _ _ _ => pr

def MDBlock.schema : MDBlock → List SchemaCol
  | .mk _ _ _ sc _ _ => sc

def MDBlock.rows : MDBlock → List (List String)
  | .mk _ _ _ _ rs _ => rs

def MDBlock.children : MDBlock → List MDBlock
  | .mk _ _ _ _ _ ch => ch

/-- `markdown.py::flatten`. -/
def flatten {α : Type} (xs : List (List α)) : List α :=
  xs.flatten

/-- `markdown.py::without_notion_text`. -/
def withoutNotionText (blocks : List MDBlock) : List MDBlock :=
  blocks.filter fun b => decide (b.type ≠ .text)

/-- `markdown.py::only_notion_text`: the titles of the text blocks, flattened
and with adjacent identically-styled runs merged. -/
def onlyNotionText (blocks : List MDBlock) : List NToken :=
  mergeAdjacentTokens
    (flatten ((blocks.filter fun b => decide (b.type = .text)).map (·.title)))

/-- `markdown.py::collect_notion_text` (no extra keyword arguments are passed
by any caller in the source). -/
def collectNotionText (blocks : List MDBlock) (blockType : BKind) : List MDBlock :=
  .mk blockType (onlyNotionText blocks) [] [] [] [] :: withoutNotionText blocks

/-- `markdown.py::as_inline_block`. -/
def asInlineBlock (title : List NToken) : MDBlock :=
  .mk .text title [] [] [] []

/-- `markdown.py::as_inline_style_block`. -/
def asInlineStyleBlock (blocks : List MDBlock) (style : List String) : MDBlock :=
  asInlineBlock (applyStyle (onlyNotionText blocks) style)

/-- `markdown.py::render_heading` level mapping: levels above 3 are clamped to
3, then `[HeaderBlock, SubheaderBlock, SubsubheaderBlock][level - 1]` selects
the class (for level 0 Python's index `-1` selects the last element, which the
catch-all arm reproduces; mistletoe only emits levels 1-6). -/
def headingBlockType (level : Nat) : BKind :=
  let l := if level > 3 then 3 else level
  match l with
  | 1 => .header
  | 2 => .subheader
  | _ => .subsubheader

/-- `markdown.py::NotionRenderer.render_heading`, applied to the already
rendered children of the heading token. -/
def renderHeading (level : Nat) (renderedChildren : List MDBlock) : List MDBlock :=
  collectNotionText renderedChildren (headingBlockType level)

/-- `markdown.py::NotionRenderer.render_table`, applied to the rendered header
row (a list of table-cell blocks) and the rendered data rows. -/
def renderTableBlock (headerBlocks : List MDBlock) (rowBlocks : List (List MDBlock)) :
    MDBlock :=
  let headerRow := headerBlocks.map fun h => notionAsPlainText h.title
  let rows := rowBlocks.map fun r => r.map fun c => notionAsPlainText c.title
  .mk .collectionView [] [] (headerRow.map fun h => ⟨h, "text"⟩) rows []

/-- The loop of `markdown.py::merge_adjacent_textblocks`: adjacent `TextBlock`
outputs are merged by concatenating their titles. -/
def mergeAdjacentTextGo : MDBlock → List MDBlock → List MDBlock
  | prev, [] => [prev]
  | prev, b :: bs =>
    if prev.type = .text ∧ b.type = .text then
      mergeAdjacentTextGo (.mk prev.type (prev.title ++ b.title) prev.props
        prev.schema prev.rows prev.children) bs
    else
      prev :: mergeAdjacentTextGo b bs

/-- `markdown.py::merge_adjacent_textblocks`. -/
def mergeAdjacentTextblocks : List MDBlock → List MDBlock
  | [] => []
  | b :: bs => mergeAdjacentTextGo b bs

/-! ## The Markdown parse tree and the renderer

The mistletoe parse tree is the renderer's input; the node kinds below are the
ones the claims exercise.  `render` mirrors `NotionRenderer.render` /
`__render_multiple`: every handler returns a list of block descriptors and the
results of a node list are flattened. -/

inductive MDNode where
  | rawText (content : String)
  | lineBreak
  | strong (children : List MDNode)
  | emphasis (children : List MDNode)
  | inlineCode (children : List MDNode)
  | strikethrough (children : List MDNode)
  | link (children : List MDNode) (target : String)
  | escapeSequence (children : List MDNode)
  | heading (level : Nat) (children : List MDNode)
  | quote (children : List MDNode)
  | paragraph (children : List MDNode)
  | tableCell (children : List MDNode)
  | tableRow (children : List MDNode)
  | table (header : MDNode) (children : List MDNode)
  | document (children : List MDNode)

mutual

/-- `markdown.py::NotionRenderer.render` dispatched over the node class. -/
def render : MDNode → List MDBlock
  | .rawText s => [asInlineBlock [⟨s, []⟩]]
  | .lineBreak => [asInlineBlock [⟨" ", []⟩]]
  | .strong cs => [asInlineStyleBlock (renderMultiple cs) ["b"]]
  | .emphasis cs => [asInlineStyleBlock (renderMultiple cs) ["i"]]
  | .inlineCode cs => [asInlineStyleBlock (renderMultiple cs) ["c"]]
  | .strikethrough cs => [asInlineStyleBlock (renderMultiple cs) ["s"]]
  | .link cs target => [asInlineStyleBlock (renderMultiple cs) ["a", target]]
  | .escapeSequence cs => renderMultiple cs
  | .heading level cs => renderHeading level (renderMultiple cs)
  | .quote cs => collectNotionText (renderMultiple cs) .quote
  | .paragraph cs => mergeAdjacentTextblocks (renderMultiple cs)
  | .tableCell cs => [asInlineBlock (onlyNotionText (renderMultiple cs))]
  | .tableRow cs => renderMultiple cs
  | .table header rows => [renderTableBlock (render header) (renderEach rows)]
  | .document cs => renderMultiple cs

/-- `markdown.py::NotionRenderer.__render_multiple`. -/
def renderMultiple : List MDNode → List MDBlock
  | [] => []
  | n :: ns => render n ++ renderMultiple ns

/-- Renders each node of a list separately (the comprehension in
`render_table` over `token.children`). -/
def renderEach : List MDNode → List (List MDBlock)
  | [] => []
  | n :: ns => render n :: renderEach ns

end

/-- `markdown.py::convert` (line 308).  Note the source signature is
`def convert(markdown):` — it accepts the document only; there is no
`link_resolver` parameter anywhere in `markdown.py`. -/
def convert (doc : MDNode) : List MDBlock :=
  render doc

/-! ## The remote model (notion-py collaborators)

Remote state is modelled purely; every remote write additionally appends a
`Mut` event describing the mutation that the source would issue. -/

/-- A row of a remote collection: its stable id and its property bag. -/
structure CRow where
  id : Nat
  props : List (String × String)
deriving DecidableEq, Repr

/-- A remote collection: a stored schema (a dict `column id ↦ column
descriptor`, modelled as an association list in insertion order) and its rows
in order. -/
structure Collection where
  schema : List (String × SchemaCol)
  rows : List CRow
deriving DecidableEq, Repr

/-- A remote block: stable `id`, block kind, title property, remaining scalar
properties, the page `locked` flag and `icon`, ordered children, and the
attached collection for `CollectionViewBlock`s. -/
inductive RBlock where
  | mk (id : Nat) (type : BKind) (title : List NToken)
      (props : List (String × String)) (locked : Bool) (icon : Option String)
      (children : List RBlock) (collection : Option Collection)

def RBlock.id : RBlock → Nat
  | .mk i _ _ _ _ _ _ _ => i

def RBlock.type : RBlock → BKind
  | .mk _ ty _ _ _ _ _ _ => ty

def RBlock.title : RBlock → List NToken
  | .mk _ _ ti _ _ _ _ _ => ti

def RBlock.props : RBlock → List (String × String)
  | .mk _ _ _ pr _ _ _ _ => pr

def RBlock.locked : RBlock → Bool
  | .mk _ _ _ _ lk _ _ _ => lk

def RBlock.icon : RBlock → Option String
  | .mk _ _ _ _ _ ic _ _ => ic

def RBlock.children : RBlock → List RBlock
  | .mk _ _ _ _ _ _ ch _ => ch

def RBlock.collection : RBlock → Option Collection
  | .mk _ _ _ _ _ _ _ co => co

def RBlock.setTitle (b : RBlock) (ti : List NToken) : RBlock :=
  match b with
  | .mk i ty _ pr lk ic ch co => .mk i ty ti pr lk ic ch co

def RBlock.setChildren (b : RBlock) (ch : List RBlock) : RBlock :=
  match b with
  | .mk i ty ti pr lk ic _ co => .mk i ty ti pr lk ic ch co

def RBlock.setCollection (b : RBlock) (co : Option Collection) : RBlock :=
  match b with
  | .mk i ty ti pr lk ic ch _ => .mk i ty ti pr lk ic ch co

def RBlock.setLocked (b : RBlock) (lk : Bool) : RBlock :=
  match b with
  | .mk i ty ti pr _ ic ch co => .mk i ty ti pr lk ic ch co

def RBlock.setIcon (b : RBlock) (ic : Option String) : RBlock :=
  match b with
  | .mk i ty ti pr lk _ ch co => .mk i ty ti pr lk ic ch co

/-- One remote mutation issued by the sync (creations, writes, removals and
moves; compare-before-write checks that short-circuit emit nothing). -/
inductive Mut where
  | createBlock (id : Nat) (type : BKind)
  | setBlockTitle (id : Nat)
  | removeBlock (id : Nat)
  | createPage (id : Nat) (title : String)
  | setLock (id : Nat)
  | setIcon (id : Nat)
  | movePage (id : Nat)
  | createCollection (blockId : Nat)
  | addView (blockId : Nat)
  | setSchema (blockId : Nat)
  | addRow (id : Nat)
  | removeRow (id : Nat)
  | setRowProp (rowId : Nat) (key : String) (oldVal newVal : Option String)
deriving DecidableEq, Repr

def Mut.isRemoveRow : Mut → Bool
  | .removeRow _ => true
  | _ => false

def Mut.isAddRow : Mut → Bool
  | .addRow _ => true
  | _ => false

def Mut.isSetRowProp : Mut → Bool
  | .setRowProp _ _ _ _ => true
  | _ => false

/-- Dictionary lookup on an association list (first binding wins). -/
def lookupProp (ps : List (String × String)) (k : String) : Option String :=
  (ps.find? fun p => p.1 == k).map (·.2)

/-- Dictionary assignment on an association list: replace the binding if the
key is present, append it otherwise. -/
def setProp (ps : List (String × String)) (k v : String) : List (String × String) :=
  if ps.any (fun p => p.1 == k) then
    ps.map fun p => if p.1 == k then (k, v) else p
  else
    ps ++ [(k, v)]

/-! ## Table / collection synchronizer (`__init__.py`) -/

/-- A lowercase hexadecimal digit (Python `format(·, "x")` digits). -/
def hexDigitChar (n : Nat) : Char :=
  if n < 10 then Char.ofNat (48 + n) else Char.ofNat (87 + n)

/-- Digit extraction with explicit fuel (any fuel above the number of digits
gives the same result; `hexDigits` supplies `n + 1`, which always suffices). -/
def hexDigitsAux : Nat → Nat → List Char
  | 0, _ => []
  | fuel + 1, n =>
    if n < 16 then [hexDigitChar n]
    else hexDigitsAux fuel (n / 16) ++ [hexDigitChar (n % 16)]

/-- The lowercase hexadecimal digits of `n`, most significant first
(Python `format(n, "x")`). -/
def hexDigits (n : Nat) : List Char :=
  hexDigitsAux (n + 1) n

/-- Python `format(n, "0>4x")`: the lowercase hexadecimal digits of `n`,
left-padded with `0` to a minimum width of 4. -/
def formatHexPad4 (n : Nat) : String :=
  ⟨List.replicate (4 - (hexDigits n).length) '0' ++ hexDigits n⟩

/-- `__init__.py::sync_collection_rows` lines 124-127: the column identifiers
for a target schema of `n` columns: `"title"` followed by `"x" + format(i,
"0>4x")` for `i` in `range(n - 1)`. -/
def collectionSchemaIds (n : Nat) : List String :=
  "title" :: (List.range (n - 1)).map fun i => "x" ++ formatHexPad4 i

/-- `__init__.py::sync_collection_schema`: overwrite the stored schema only
when it differs from the expected one. -/
def syncCollectionSchema (blockId : Nat) (c : Collection)
    (expected : List (String × SchemaCol)) : Collection × List Mut :=
  if c.schema = expected then (c, [])
  else ({ c with schema := expected }, [.setSchema blockId])

/-- The inner write loop of `__init__.py::sync_collection_rows`: for each
`(schema_id, prop_value)` pair, write the value only when it differs from the
row's currently stored value for that id. -/
def writeRowProps (row : CRow) : List (String × String) → CRow × List Mut
  | [] => (row, [])
  | (k, v) :: rest =>
    let stored := lookupProp row.props k
    let step : CRow × List Mut :=
      if stored = some v then (row, [])
      else (⟨row.id, setProp row.props k v⟩, [Mut.setRowProp row.id k stored (some v)])
    let tail := writeRowProps step.1 rest
    (tail.1, step.2 ++ tail.2)

/-- The row loop of `__init__.py::sync_collection_rows` lines 136-151:
`existing` is the prefix of the previously stored rows that the iterator can
still yield (the trailing rows were already removed); a missing row is created
with a fresh id; each target row is truncated to the schema ids and written
compare-before-write. -/
def syncRowsLoop (ids : List String) :
    List (List String) → List CRow → Nat → List CRow × Nat × List Mut
  | [], _, fresh => ([], fresh, [])
  | r :: rs, existing, fresh =>
    let first : CRow × Nat × List Mut :=
      match existing with
      | e :: _ => (e, fresh, ([] : List Mut))
      | [] => (⟨fresh, []⟩, fresh + 1, [Mut.addRow fresh])
    let truncated := if r.length > ids.length then r.take ids.length else r
    let w := writeRowProps first.1 (ids.zip truncated)
    let rest := syncRowsLoop ids rs (existing.drop 1) first.2.1
    (w.1 :: rest.1, rest.2.1, first.2.2 ++ w.2 ++ rest.2.2)

/-- `__init__.py::sync_collection_rows`.  A block with no collection gets one
created with the placeholder single-column schema and a table view attached
(the placeholder's value dict uses the key `"text"` in the source; it never
equals a renderer-produced schema entry, so it is modelled as a `SchemaCol`
with name `"_"`). -/
def syncCollectionRows (b : RBlock) (collectionSchema : List SchemaCol)
    (collectionRows : List (List String)) (fresh : Nat) : RBlock × Nat × List Mut :=
  let cl : Collection × List Mut :=
    match b.collection with
    | some c => (c, ([] : List Mut))
    | none => (⟨[("title", ⟨"_", "text"⟩)], []⟩,
        [Mut.createCollection b.id, Mut.addView b.id])
  let ids := collectionSchemaIds collectionSchema.length
  let sc := syncCollectionSchema b.id cl.1 (ids.zip collectionSchema)
  let existing := sc.1.rows
  let logRemoved := (existing.drop collectionRows.length).map fun r => Mut.removeRow r.id
  let lr := syncRowsLoop ids collectionRows (existing.take collectionRows.length) fresh
  (b.setCollection (some { sc.1 with rows := lr.1 }), lr.2.1,
    cl.2 ++ sc.2 ++ logRemoved ++ lr.2.2)

/-! ## Remote tree reconciler (`__init__.py::sync_markdown_blocks_to_block`) -/

/-- `__init__.py::block_matches_markdown_block`: the target's block class must
equal the remote block's class and every property remaining in the target
dictionary (keys `type`/`schema`/`rows` are skipped; `title` and `children`
were popped by the caller) must equal the block's attribute. -/
def blockMatchesMarkdownBlock (b : RBlock) (t : MDBlock) : Bool :=
  decide (b.type = t.type) &&
    t.props.all fun kv => decide (lookupProp b.props kv.1 = some kv.2)

/-- The cursor scan of lines 167-171: advance over the remaining children,
skipping the ones that do not match, until a matching child is found.  Returns
the skipped prefix, the match, and the rest, or `none` when the iterator is
exhausted. -/
def scanMatch (t : MDBlock) : List RBlock → Option (List RBlock × RBlock × List RBlock)
  | [] => none
  | b :: bs =>
    if blockMatchesMarkdownBlock b t then some ([], b, bs)
    else
      match scanMatch t bs with
      | some (sk, m, rest) => some (b :: sk, m, rest)
      | none => none

/-- The mutable state of one `sync_markdown_blocks_to_block` call: `done` are
the children the cursor has passed (with their mutations applied), `cursor`
the children the iterator can still yield, `created` the blocks appended at
the end of the remote child list, `touched` the recorded identities, `fresh`
the next unused id, and `log` the mutations issued so far. -/
structure SyncSt where
  done : List RBlock
  cursor : List RBlock
  created : List RBlock
  touched : List Nat
  fresh : Nat
  log : List Mut

/-- The removal pass of `sync_markdown_blocks_to_block` (lines 198-201),
applied to the state after the target loop: the final child list is the passed
children followed by the created blocks; every non-page child whose id was not
touched is removed.  Returns the resulting child list, the touched set, the
next fresh id and the mutation log. -/
def finishLevel (s : SyncSt) : List RBlock × List Nat × Nat × List Mut :=
  let finalChildren := s.done ++ s.cursor ++ s.created
  let keep := finalChildren.filter fun c => decide (c.type = .page ∨ c.id ∈ s.touched)
  let removed := finalChildren.filter fun c => decide (¬(c.type = .page ∨ c.id ∈ s.touched))
  (keep, s.touched, s.fresh, s.log ++ removed.map fun c => Mut.removeBlock c.id)

/-- Lines 177-182: set the title property only when the target carries a
non-empty title that differs from the stored one. -/
def syncTitle (b : RBlock) (title : List NToken) : RBlock × List Mut :=
  if title ≠ [] ∧ b.title ≠ title then (b.setTitle title, [Mut.setBlockTitle b.id])
  else (b, [])

/-- Lines 186-187: run the collection synchronizer on `CollectionViewBlock`s
(matching guarantees the block class equals the target class, so this test is
the target-kind test). -/
def syncColl (b : RBlock) (schema : List SchemaCol) (rows : List (List String))
    (fresh : Nat) : RBlock × Nat × List Mut :=
  if b.type = .collectionView then syncCollectionRows b schema rows fresh
  else (b, fresh, [])

/-- Lines 191-195: a target without children clears stale child content. -/
def syncNoChildren (b : RBlock) (fresh : Nat) : RBlock × Nat × List Mut :=
  if b.children.length > 0 then
    (b.setChildren [], fresh, b.children.map fun c => Mut.removeBlock c.id)
  else (b, fresh, [])

/-- The starting state of one `sync_markdown_blocks_to_block` level. -/
def initSt (children : List RBlock) (fresh : Nat) : SyncSt :=
  { done := [], cursor := children, created := [], touched := [], fresh := fresh,
    log := [] }

mutual

/-- One iteration of the target loop (lines 158-195): find the matching child
by advancing the cursor (reusing it), or create a new child at the end; then
set the title property when non-empty and different, run the collection
synchronizer on `CollectionViewBlock`s, recurse into carried children (a full
`sync_markdown_blocks_to_block` on the child), and otherwise drop stale child
content. -/
def syncOne : MDBlock → SyncSt → SyncSt
  | .mk ty title pr schema rows tchildren, s =>
    match scanMatch (.mk ty title pr schema rows tchildren) s.cursor with
    | some (skipped, m, rest) =>
      let t1 := syncTitle m title
      let t2 := syncColl t1.1 schema rows s.fresh
      let t3 : RBlock × Nat × List Mut :=
        if tchildren.isEmpty then syncNoChildren t2.1 t2.2.1
        else
          let r := finishLevel (syncLoop tchildren (initSt t2.1.children t2.2.1))
          (t2.1.setChildren r.1, r.2.2.1, r.2.2.2)
      { done := s.done ++ skipped ++ [t3.1], cursor := rest, created := s.created,
        touched := s.touched ++ [m.id], fresh := t3.2.1,
        log := s.log ++ t1.2 ++ t2.2.2 ++ t3.2.2 }
    | none =>
      let nb : RBlock := .mk s.fresh ty [] pr false none [] none
      let t1 := syncTitle nb title
      let t2 := syncColl t1.1 schema rows (s.fresh + 1)
      let t3 : RBlock × Nat × List Mut :=
        if tchildren.isEmpty then syncNoChildren t2.1 t2.2.1
        else
          let r := finishLevel (syncLoop tchildren (initSt t2.1.children t2.2.1))
          (t2.1.setChildren r.1, r.2.2.1, r.2.2.2)
      { done := s.done ++ s.cursor, cursor := [], created := s.created ++ [t3.1],
        touched := s.touched ++ [nb.id], fresh := t3.2.1,
        log := s.log ++ [Mut.createBlock nb.id ty] ++ t1.2 ++ t2.2.2 ++ t3.2.2 }

/-- The target loop of `sync_markdown_blocks_to_block`. -/
def syncLoop : List MDBlock → SyncSt → SyncSt
  | [], s => s
  | t :: ts, s => syncLoop ts (syncOne t s)

end

/-- `__init__.py::sync_markdown_blocks_to_block`: run the target loop over the
given children, then the removal pass. -/
def syncBlocks (targets : List MDBlock) (children : List RBlock) (fresh : Nat) :
    List RBlock × List Nat × Nat × List Mut :=
  finishLevel (syncLoop targets (initSt children fresh))

/-! ## Page reordering (`__init__.py::move_pages_to_end`) -/

/-- The scan of lines 67-75: `seen` accumulates a run of page children; when a
non-page child follows, the run is flushed into the pages to move. -/
def pagesToMoveAux : List RBlock → List RBlock → List RBlock → List RBlock
  | [], toMove, _seen => toMove
  | c :: cs, toMove, seen =>
    if c.type = .page then pagesToMoveAux cs toMove (seen ++ [c])
    else pagesToMoveAux cs (toMove ++ seen) []

/-- The pages that `move_pages_to_end` moves: every page child that is
followed (not necessarily immediately) by a non-page child, in order. -/
def pagesToMove (children : List RBlock) : List RBlock :=
  pagesToMoveAux children [] []

/-- `page.move_to(block, "last-child")` within the same parent: remove the
child with the page's id and append it at the end. -/
def moveToLast (l : List RBlock) (pid : Nat) : List RBlock :=
  l.filter (fun c => decide (c.id ≠ pid)) ++ l.filter (fun c => decide (c.id = pid))

/-- `__init__.py::move_pages_to_end`: move each collected page to the end of
the child list, in collection order, logging one move per page. -/
def movePagesToEnd (children : List RBlock) : List RBlock × List Mut :=
  let moves := pagesToMove children
  (moves.foldl (fun l p => moveToLast l p.id) children,
    moves.map fun p => Mut.movePage p.id)

/-! ## Directory-to-page mapper (`__init__.py`) -/

/-- Character-level lowercase (`str.lower()`; ASCII suffices for the entry
names in play). -/
def strLower (s : String) : String :=
  ⟨s.toList.map Char.toLower⟩

/-- Whether the string starts with the given character (`str.startswith` for
a one-character prefix). -/
def strStartsWith (c : Char) (s : String) : Bool :=
  match s.toList with
  | [] => false
  | c2 :: _ => c2 == c

/-- Splitting a path at `/` separators (the behaviour of `str.split("/")`). -/
def splitSlashAux : List Char → List Char → List String
  | [], acc => [⟨acc⟩]
  | c :: cs, acc =>
    if c = '/' then ⟨acc⟩ :: splitSlashAux cs [] else splitSlashAux cs (acc ++ [c])

/-- Split an absolute path at `/` separators. -/
def splitSlash (s : String) : List String :=
  splitSlashAux s.toList []

/-- Join path segments with `/` separators. -/
def joinSlash : List String → String
  | [] => ""
  | [s] => s
  | s :: rest => s ++ "/" ++ joinSlash rest

/-- `os.path.splitext` restricted to bare entry names and already-clean paths
(no separator handling is needed for the names `os.listdir` yields): split at
the last dot, unless every character before that dot is itself a dot, in which
case there is no extension. -/
def splitext (p : String) : String × String :=
  let cs := p.toList
  let lastDot := (List.range cs.length).foldl
    (fun acc i => if cs.getD i ' ' = '.' then some i else acc) none
  match lastDot with
  | none => (p, "")
  | some d =>
    if (cs.take d).any (fun c => c != '.') then (⟨cs.take d⟩, ⟨cs.drop d⟩)
    else (p, "")

/-- Python `str.capitalize`: first character uppercased, the rest lowercased
(ASCII suffices for the names in play). -/
def pyCapitalize (s : String) : String :=
  match s.toList with
  | [] => ""
  | c :: cs => ⟨c.toUpper :: cs.map Char.toLower⟩

/-- `name.replace("-", " ").replace("_", " ")`: with one-character patterns,
`str.replace` is the character map. -/
def dashUnderscoreToSpace (s : String) : String :=
  ⟨s.toList.map fun c => if c = '-' ∨ c = '_' then ' ' else c⟩

/-- `__init__.py::infer_block` line 49: the page title derived from an entry
name stem. -/
def pageTitleOf (name : String) : String :=
  pyCapitalize (dashUnderscoreToSpace name)

/-- `__init__.py::infer_block`: an `index`-stemmed entry resolves to the
parent block itself; a non-`.md` extension is rejected; otherwise the first
same-titled page child is reused or a new page child is created.  Returns the
resolved block id (`none` for rejection), the possibly extended parent, the
next fresh id, and the mutation log.  Page titles are modelled as a single
unstyled run, so notion-py's `block.title` string is the run's literal. -/
def inferBlock (parent : RBlock) (path : String) (fresh : Nat) :
    Option Nat × RBlock × Nat × List Mut :=
  let ne := splitext path
  if ne.1 = "index" then (some parent.id, parent, fresh, [])
  else if ne.2 ≠ ".md" ∧ ne.2 ≠ "" then (none, parent, fresh, [])
  else
    let title := pageTitleOf ne.1
    match parent.children.find? (fun c =>
        decide (c.type = .page) && decide (notionAsPlainText c.title = title)) with
    | some c => (some c.id, parent, fresh, [])
    | none =>
      let np : RBlock := .mk fresh .page [⟨title, []⟩] [] false none [] none
      (some fresh, parent.setChildren (parent.children ++ [np]), fresh + 1,
        [Mut.createPage fresh title])

/-- A local directory entry, as `os.listdir` yields it.  A file's text is
represented by the block-descriptor list that `markdown.py::convert` produces
for it: `convert` is a pure function of the file text, so identical local
content always yields identical descriptors. -/
inductive FSEntry where
  | file (name : String) (content : List MDBlock)
  | dir (name : String) (entries : List FSEntry)

def FSEntry.name : FSEntry → String
  | .file n _ => n
  | .dir n _ => n

def FSEntry.isFile : FSEntry → Bool
  | .file _ _ => true
  | .dir _ _ => false

/-- The result type of the page-structure pass: the `files_to_pages` mapping
(absolute path, converted file content, target block id, in insertion order),
the updated remote tree, the next fresh id, and the mutation log. -/
abbrev CpsResult := List (String × List MDBlock × Nat) × RBlock × Nat × List Mut

/-- The prelude of `__init__.py::create_page_structure` (lines 240-250): an
exact `index.md` maps to the directory's own page, else an exact `README.md`;
the source's `readme_lower_path` (line 242) is also built from the string
`"README.md"`, so the third check re-tests the very same path. -/
def cpsSpecial (dirPath : String) (entries : List FSEntry) (root : RBlock) :
    List (String × List MDBlock × Nat) :=
  let indexEntry := entries.find? fun e => e.isFile && e.name == "index.md"
  let readmeEntry := entries.find? fun e => e.isFile && e.name == "README.md"
  match indexEntry with
  | some (.file _ c) => [(dirPath ++ "/index.md", c, root.id)]
  | _ =>
    match readmeEntry with
    | some (.file _ c) => [(dirPath ++ "/README.md", c, root.id)]
    | _ =>
      match readmeEntry with
      | some (.file _ c) => [(dirPath ++ "/README.md", c, root.id)]
      | _ => []

mutual

/-- The listing loop of `create_page_structure` (lines 252-273). -/
def cpsEntries (dirPath : String) : List FSEntry → RBlock → Nat → CpsResult
  | [], root, fresh => ([], root, fresh, [])
  | e :: es, root, fresh =>
    let r1 := cpsEntry dirPath e root fresh
    let r2 := cpsEntries dirPath es r1.2.1 r1.2.2.1
    (r1.1 ++ r2.1, r2.2.1, r2.2.2.1, r1.2.2.2 ++ r2.2.2.2)

/-- One iteration of the listing loop: hidden entries and any case variant of
`index.md`/`readme.md` are skipped; otherwise `infer_block` resolves the
target block, directories recurse into it (prelude included), and `.md` files
are mapped onto it. -/
def cpsEntry (dirPath : String) : FSEntry → RBlock → Nat → CpsResult
  | .file name content, root, fresh =>
    if strStartsWith '.' name then ([], root, fresh, [])
    else if strLower name = "index.md" ∨ strLower name = "readme.md" then
      ([], root, fresh, [])
    else
      let (bid?, root1, fresh1, log1) := inferBlock root name fresh
      match bid? with
      | none => ([], root1, fresh1, log1)
      | some bid =>
        let fullPath := dirPath ++ "/" ++ name
        if strLower (splitext fullPath).2 = ".md" then
          ([(fullPath, content, bid)], root1, fresh1, log1)
        else ([], root1, fresh1, log1)
  | .dir name subEntries, root, fresh =>
    if strStartsWith '.' name then ([], root, fresh, [])
    else if strLower name = "index.md" ∨ strLower name = "readme.md" then
      ([], root, fresh, [])
    else
      let (bid?, root1, fresh1, log1) := inferBlock root name fresh
      match bid? with
      | none => ([], root1, fresh1, log1)
      | some bid =>
        let fullPath := dirPath ++ "/" ++ name
        if bid = root1.id then
          let r := cpsEntries fullPath subEntries root1 fresh1
          (cpsSpecial fullPath subEntries root1 ++ r.1, r.2.1, r.2.2.1, log1 ++ r.2.2.2)
        else
          match root1.children.find? (fun c => c.id == bid) with
          | none => ([], root1, fresh1, log1)
          | some sub =>
            let r := cpsEntries fullPath subEntries sub fresh1
            let root2 := root1.setChildren
              (root1.children.map fun c => if c.id == bid then r.2.1 else c)
            (cpsSpecial fullPath subEntries sub ++ r.1, root2, r.2.2.1, log1 ++ r.2.2.2)

end

/-- `__init__.py::create_page_structure`: the index/readme prelude followed by
the listing loop. -/
def createPageStructure (dirPath : String) (entries : List FSEntry) (root : RBlock)
    (fresh : Nat) : CpsResult :=
  let r := cpsEntries dirPath entries root fresh
  (cpsSpecial dirPath entries root ++ r.1, r.2.1, r.2.2.1, r.2.2.2)

mutual

/-- Locate the block with the given id in a remote tree and rewrite it with
`f` (which also yields a fresh-id counter and a mutation log). -/
def modifyById (i : Nat) (f : RBlock → RBlock × Nat × List Mut) :
    RBlock → Option (RBlock × Nat × List Mut)
  | .mk j ty ti pr lk ic ch co =>
    if j = i then some (f (.mk j ty ti pr lk ic ch co))
    else
      match modifyByIdList i f ch with
      | some (ch2, fr, lg) => some (.mk j ty ti pr lk ic ch2 co, fr, lg)
      | none => none

/-- `modifyById` over a child list (first occurrence wins). -/
def modifyByIdList (i : Nat) (f : RBlock → RBlock × Nat × List Mut) :
    List RBlock → Option (List RBlock × Nat × List Mut)
  | [] => none
  | c :: cs =>
    match modifyById i f c with
    | some (c2, fr, lg) => some (c2 :: cs, fr, lg)
    | none =>
      match modifyByIdList i f cs with
      | some (cs2, fr, lg) => some (c :: cs2, fr, lg)
      | none => none

end

/-- The per-page body of the loop in `__init__.py::sync_directory_to_block`
(lines 287-305): lock the page if not yet locked, give it an icon if it has
none (`random_emoji()` is nondeterministic, so the chosen emoji is a
parameter), sync the file content into it, move page children to the end, and
prune page children absent from the global touched set. -/
def lockAndSyncPage (emoji : String) (touched : List Nat) (content : List MDBlock)
    (b : RBlock) (fresh : Nat) : RBlock × Nat × List Mut :=
  let (b1, log1) :=
    if b.locked then (b, ([] : List Mut)) else (b.setLocked true, [Mut.setLock b.id])
  let (b2, log2) :=
    match b1.icon with
    | some _ => (b1, ([] : List Mut))
    | none => (b1.setIcon (some emoji), [Mut.setIcon b1.id])
  let r := syncBlocks content b2.children fresh
  let b3 := b2.setChildren r.1
  let (cs4, log4) := movePagesToEnd b3.children
  let b4 := b3.setChildren cs4
  let keep := b4.children.filter fun c => decide (¬(c.type = .page ∧ c.id ∉ touched))
  let prunedPages := b4.children.filter fun c => decide (c.type = .page ∧ c.id ∉ touched)
  (b4.setChildren keep, r.2.2.1,
    log1 ++ log2 ++ r.2.2.2 ++ log4 ++ prunedPages.map fun c => Mut.removeBlock c.id)

/-- `__init__.py::sync_directory_to_block`: build the page structure, compute
the touched-page set from the mapping's values, then lock/sync/sort/clean
every mapped page in mapping order. -/
def syncDirectoryToBlock (emoji : String) (dirPath : String) (entries : List FSEntry)
    (root : RBlock) (fresh : Nat) : RBlock × Nat × List Mut :=
  let (filesToPages, root1, fresh1, log1) := createPageStructure dirPath entries root fresh
  let touched := filesToPages.map fun e => e.2.2
  filesToPages.foldl
    (fun (acc : RBlock × Nat × List Mut) e =>
      match modifyById e.2.2 (fun b => lockAndSyncPage emoji touched e.2.1 b acc.2.1) acc.1 with
      | some (tree2, fr2, lg2) => (tree2, fr2, acc.2.2 ++ lg2)
      | none => acc)
    (root1, fresh1, log1)

/-! ## Link resolution (`__init__.py::sync_file_to_block`) -/

/-- `urlparse(target).scheme` is non-empty: a leading alphabetic character,
followed by alphanumerics or `+`/`-`/`.`, followed by a colon. -/
def hasUrlScheme (target : String) : Bool :=
  let cs := target.toList
  match cs.findIdx? (fun c => c = ':') with
  | none => false
  | some i =>
    match cs.take i with
    | [] => false
    | c :: rest =>
      c.isAlpha && rest.all fun d => d.isAlphanum || d = '+' || d = '-' || d = '.'

/-- `os.path.dirname` for an absolute path: everything before the last
separator (adequate for the nested absolute file paths the sync builds). -/
def dirname (p : String) : String :=
  joinSlash (splitSlash p).dropLast

/-- `os.path.join` for the two shapes that occur: an absolute second argument
wins, otherwise the parts are separated by `/`. -/
def joinPath (dir target : String) : String :=
  if strStartsWith '/' target then target else dir ++ "/" ++ target

/-- `os.path.realpath` on an absolute path (no symlinks in the model): resolve
`.` and `..` segments and collapse duplicate separators. -/
def normalizePath (p : String) : String :=
  let segs := (splitSlash p).foldl
    (fun (acc : List String) s =>
      if s = "" ∨ s = "." then acc
      else if s = ".." then acc.dropLast
      else acc ++ [s])
    []
  "/" ++ joinSlash segs

/-- The `resolve_link` closure defined inside `__init__.py::sync_file_to_block`
(lines 212-228): pass schemeful targets through; resolve others against the
source file's directory and replace them with the mapped page's browsable URL
when the lookup succeeds.  `links` maps absolute paths to browsable URLs (the
composition of the Python dict with `get_browseable_url`). -/
def resolveLink (filename : String) (links : List (String × String)) (target : String) :
    String :=
  if hasUrlScheme target then target
  else
    let targetPath := normalizePath (joinPath (dirname filename) target)
    match lookupProp links targetPath with
    | none => target
    | some url => url

/-! ## Derived notions and concrete instances used by the statements -/

/-- The id and kind of a remote block (what the reconciler preserves for the
children it keeps). -/
def idType (c : RBlock) : Nat × BKind := (c.id, c.type)

/-- A child list in which every page-kind block trails every non-page-kind
block. -/
def pagesAfterNonpages (l : List RBlock) : Prop :=
  ∃ a b, l = a ++ b ∧ (∀ c ∈ a, c.type ≠ BKind.page) ∧ (∀ c ∈ b, c.type = BKind.page)

/-- The descriptor `convert` produces for a paragraph reading `Hello`. -/
def helloBlock : MDBlock := .mk .text [⟨"Hello", []⟩] [] [] [] []

/-- An empty remote root page with id 0. -/
def root0 : RBlock := .mk 0 .page [] [] false none [] none

/-- The failing input for the idempotence property: a directory with an
`index.md` and a subdirectory that contributes no markdown file. -/
def dirWithEmptySubdir : List FSEntry := [.file "index.md" [helloBlock], .dir "empty" []]

/-- A concrete page child. -/
def demoPage : RBlock := .mk 1 .page [⟨"P", []⟩] [] false none [] none

/-- A concrete non-page child. -/
def demoText : RBlock := .mk 2 .text [⟨"T", []⟩] [] false none [] none

/-- A concrete remote collection holding one row. -/
def demoCollection : Collection := ⟨[("title", ⟨"N", "text"⟩)], [⟨7, [("title", "A")]⟩]⟩

/-- A concrete `CollectionViewBlock` with `demoCollection` attached. -/
def demoCollectionBlock : RBlock :=
  .mk 9 .collectionView [] [] false none [] (some demoCollection)

/-! ## Helper lemmas: the token merge -/

theorem mergeAdjacentGo_head (ts : List NToken) :
    ∀ prev : NToken, ∃ t l, mergeAdjacentGo prev ts = t :: l ∧ t.styles = prev.styles := by
  induction ts with
  | nil => exact fun prev => ⟨prev, [], rfl, rfl⟩
  | cons t ts ih =>
    intro prev
    by_cases h : t.styles = prev.styles
    · simp only [mergeAdjacentGo, if_pos h]
      exact ih ⟨prev.literal ++ t.literal, prev.styles⟩
    · simp only [mergeAdjacentGo, if_neg h]
      exact ⟨prev, mergeAdjacentGo t ts, rfl, rfl⟩

theorem mergeAdjacentGo_chain (ts : List NToken) :
    ∀ prev : NToken,
      List.Chain' (fun a b => a.styles ≠ b.styles) (mergeAdjacentGo prev ts) := by
  induction ts with
  | nil => intro prev; simp [mergeAdjacentGo]
  | cons t ts ih =>
    intro prev
    by_cases h : t.styles = prev.styles
    · simp only [mergeAdjacentGo, if_pos h]
      exact ih _
    · simp only [mergeAdjacentGo, if_neg h]
      rw [List.chain'_cons']
      refine ⟨?_, ih t⟩
      intro y hy
      obtain ⟨u, l, hl, hs⟩ := mergeAdjacentGo_head ts t
      rw [hl] at hy
      simp only [List.head?_cons, Option.mem_def, Option.some.injEq] at hy
      subst hy
      rw [hs]
      exact fun hexact => h hexact.symm

theorem mergeAdjacentGo_of_chain (ts : List NToken) :
    ∀ prev : NToken,
      List.Chain' (fun a b => a.styles ≠ b.styles) (prev :: ts) →
      mergeAdjacentGo prev ts = prev :: ts := by
  induction ts with
  | nil => intro prev _; rfl
  | cons t ts ih =>
    intro prev hc
    rw [List.chain'_cons] at hc
    have hne : t.styles ≠ prev.styles := Ne.symm hc.1
    simp only [mergeAdjacentGo, if_neg hne]
    rw [ih t hc.2]

/-! ## Helper lemmas: hexadecimal digit counts -/

theorem hexDigitsAux_length_le (fuel : Nat) :
    ∀ k, 1 ≤ k → ∀ m, m < 16 ^ k → (hexDigitsAux fuel m).length ≤ k := by
  induction fuel with
  | zero =>
    intro k hk m _
    simp only [hexDigitsAux, List.length_nil]
    omega
  | succ fuel ih =>
    intro k hk m hm
    simp only [hexDigitsAux]
    split
    · simpa using hk
    · rename_i h16
      have hk2 : 2 ≤ k := by
        by_contra hlt
        have hk1 : k = 1 := by omega
        subst hk1
        simp only [pow_one] at hm
        omega
      have heq : 16 ^ k = 16 * 16 ^ (k - 1) := by
        conv_lhs => rw [show k = (k - 1) + 1 by omega]
        rw [pow_succ]
        ring
      have hdiv : m / 16 < 16 ^ (k - 1) := Nat.div_lt_of_lt_mul (heq ▸ hm)
      have hrec := ih (k - 1) (by omega) (m / 16) hdiv
      simp only [List.length_append, List.length_singleton]
      omega

theorem hexDigits_length_le (m : Nat) (hm : m < 65536) : (hexDigits m).length ≤ 4 := by
  have h4 : (16 : Nat) ^ 4 = 65536 := by norm_num
  exact hexDigitsAux_length_le (m + 1) 4 (by omega) m (by omega)

/-! ## Helper lemmas: block setters and the reconciler -/

@[simp] theorem RBlock.id_setTitle (b : RBlock) (ti : List NToken) :
    (b.setTitle ti).id = b.id := by
  cases b
  rfl

@[simp] theorem RBlock.type_setTitle (b : RBlock) (ti : List NToken) :
    (b.setTitle ti).type = b.type := by
  cases b
  rfl

@[simp] theorem RBlock.id_setChildren (b : RBlock) (ch : List RBlock) :
    (b.setChildren ch).id = b.id := by
  cases b
  rfl

@[simp] theorem RBlock.type_setChildren (b : RBlock) (ch : List RBlock) :
    (b.setChildren ch).type = b.type := by
  cases b
  rfl

@[simp] theorem RBlock.id_setCollection (b : RBlock) (co : Option Collection) :
    (b.setCollection co).id = b.id := by
  cases b
  rfl

@[simp] theorem RBlock.type_setCollection (b : RBlock) (co : Option Collection) :
    (b.setCollection co).type = b.type := by
  cases b
  rfl

@[simp] theorem RBlock.collection_setCollection (b : RBlock) (co : Option Collection) :
    (b.setCollection co).collection = co := by
  cases b
  rfl

@[simp] theorem syncCollectionRows_id (b : RBlock) (s : List SchemaCol)
    (r : List (List String)) (f : Nat) : (syncCollectionRows b s r f).1.id = b.id := by
  simp [syncCollectionRows]

@[simp] theorem syncCollectionRows_type (b : RBlock) (s : List SchemaCol)
    (r : List (List String)) (f : Nat) : (syncCollectionRows b s r f).1.type = b.type := by
  simp [syncCollectionRows]

@[simp] theorem syncTitle_id (b : RBlock) (ti : List NToken) :
    (syncTitle b ti).1.id = b.id := by
  unfold syncTitle
  split <;> simp

@[simp] theorem syncTitle_type (b : RBlock) (ti : List NToken) :
    (syncTitle b ti).1.type = b.type := by
  unfold syncTitle
  split <;> simp

@[simp] theorem syncColl_id (b : RBlock) (s : List SchemaCol) (r : List (List String))
    (f : Nat) : (syncColl b s r f).1.id = b.id := by
  unfold syncColl
  split <;> simp

@[simp] theorem syncColl_type (b : RBlock) (s : List SchemaCol) (r : List (List String))
    (f : Nat) : (syncColl b s r f).1.type = b.type := by
  unfold syncColl
  split <;> simp

@[simp] theorem syncNoChildren_id (b : RBlock) (f : Nat) :
    (syncNoChildren b f).1.id = b.id := by
  unfold syncNoChildren
  split <;> simp

@[simp] theorem syncNoChildren_type (b : RBlock) (f : Nat) :
    (syncNoChildren b f).1.type = b.type := by
  unfold syncNoChildren
  split <;> simp

theorem scanMatch_split (t : MDBlock) :
    ∀ (cursor skipped : List RBlock) (m : RBlock) (rest : List RBlock),
      scanMatch t cursor = some (skipped, m, rest) → cursor = skipped ++ m :: rest := by
  intro cursor
  induction cursor with
  | nil => intro skipped m rest h; simp [scanMatch] at h
  | cons b bs ih =>
    intro skipped m rest h
    simp only [scanMatch] at h
    split at h
    · simp only [Option.some.injEq, Prod.mk.injEq] at h
      obtain ⟨h1, h2, h3⟩ := h
      subst h1
      subst h2
      subst h3
      rfl
    · cases h2 : scanMatch t bs with
      | none => rw [h2] at h; simp at h
      | some y =>
        obtain ⟨sk2, m2, rest2⟩ := y
        rw [h2] at h
        simp only [Option.some.injEq, Prod.mk.injEq] at h
        obtain ⟨h1, h3, h4⟩ := h
        rw [← h1, ← h3, ← h4, List.cons_append, ih sk2 m2 rest2 h2]

theorem syncOne_done_cursor (t : MDBlock) (s : SyncSt) :
    ((syncOne t s).done ++ (syncOne t s).cursor).map idType
      = (s.done ++ s.cursor).map idType := by
  cases t with
  | mk ty title pr schema rows tchildren =>
    cases h : scanMatch (.mk ty title pr schema rows tchildren) s.cursor with
    | none =>
      simp only [syncOne, h]
      simp
    | some x =>
      obtain ⟨skipped, m, rest⟩ := x
      have hc := scanMatch_split _ _ _ _ _ h
      simp only [syncOne, h]
      rw [hc]
      split <;> simp [idType]

theorem syncLoop_done_cursor (ts : List MDBlock) :
    ∀ s : SyncSt, ((syncLoop ts s).done ++ (syncLoop ts s).cursor).map idType
      = (s.done ++ s.cursor).map idType := by
  induction ts with
  | nil => intro s; rfl
  | cons t ts ih =>
    intro s
    have h1 : syncLoop (t :: ts) s = syncLoop ts (syncOne t s) := rfl
    rw [h1, ih]
    exact syncOne_done_cursor t s

/-! ## Helper lemmas: page reordering -/

theorem pagesToMoveAux_acc (cs : List RBlock) :
    ∀ tm seen, pagesToMoveAux cs tm seen = tm ++ pagesToMoveAux cs [] seen := by
  induction cs with
  | nil => intro tm seen; simp [pagesToMoveAux]
  | cons c cs ih =>
    intro tm seen
    by_cases hp : c.type = BKind.page
    · simp only [pagesToMoveAux, if_pos hp]
      exact ih tm (seen ++ [c])
    · simp only [pagesToMoveAux, if_neg hp, List.nil_append]
      rw [ih (tm ++ seen) [], ih seen []]
      simp

theorem pagesToMoveAux_sublist (cs : List RBlock) :
    ∀ tm seen, List.Sublist (pagesToMoveAux cs tm seen) ((tm ++ seen) ++ cs) := by
  induction cs with
  | nil =>
    intro tm seen
    simp only [pagesToMoveAux, List.append_nil]
    exact List.sublist_append_left tm seen
  | cons c cs ih =>
    intro tm seen
    by_cases hp : c.type = BKind.page
    · simp only [pagesToMoveAux, if_pos hp]
      have h1 := ih tm (seen ++ [c])
      have heq : (tm ++ (seen ++ [c])) ++ cs = (tm ++ seen) ++ c :: cs := by simp
      rw [heq] at h1
      exact h1
    · simp only [pagesToMoveAux, if_neg hp]
      have h1 := ih (tm ++ seen) []
      simp only [List.append_nil] at h1
      have h2 : List.Sublist ((tm ++ seen) ++ cs) ((tm ++ seen) ++ c :: cs) :=
        List.Sublist.append_left (List.sublist_cons_self c cs) (tm ++ seen)
      exact h1.trans h2

theorem pagesToMoveAux_pages (cs : List RBlock) :
    ∀ tm seen, (∀ b ∈ tm, b.type = BKind.page) → (∀ b ∈ seen, b.type = BKind.page) →
      ∀ b ∈ pagesToMoveAux cs tm seen, b.type = BKind.page := by
  induction cs with
  | nil =>
    intro tm _ htm _ b hb
    exact htm b hb
  | cons c cs ih =>
    intro tm seen htm hseen
    by_cases hp : c.type = BKind.page
    · simp only [pagesToMoveAux, if_pos hp]
      refine ih tm (seen ++ [c]) htm ?_
      intro b hb
      rcases List.mem_append.mp hb with h | h
      · exact hseen b h
      · rw [List.mem_singleton.mp h]
        exact hp
    · simp only [pagesToMoveAux, if_neg hp]
      refine ih (tm ++ seen) [] ?_ (by simp)
      intro b hb
      rcases List.mem_append.mp hb with h | h
      · exact htm b h
      · exact hseen b h

theorem filter_id_singleton (l : List RBlock) :
    ∀ p : RBlock, p ∈ l → (l.map RBlock.id).Nodup →
      l.filter (fun c => decide (c.id = p.id)) = [p] := by
  induction l with
  | nil => intro p hp; exact absurd hp (List.not_mem_nil p)
  | cons c l ih =>
    intro p hp hnd
    rw [List.map_cons, List.nodup_cons] at hnd
    rcases List.mem_cons.mp hp with rfl | hp2
    · have hnil : l.filter (fun c2 => decide (c2.id = p.id)) = [] := by
        refine List.filter_eq_nil_iff.mpr ?_
        intro x hx
        simp only [decide_eq_true_eq]
        intro hxe
        exact hnd.1 (hxe ▸ List.mem_map_of_mem RBlock.id hx)
      simp [List.filter_cons, hnil]
    · have hcp : ¬(c.id = p.id) := by
        intro he
        exact hnd.1 (he ▸ List.mem_map_of_mem RBlock.id hp2)
      simp only [List.filter_cons, decide_eq_true_eq, if_neg hcp]
      exact ih p hp2 hnd.2

theorem moveFold_eq (ms : List RBlock) :
    ∀ l : List RBlock, (l.map RBlock.id).Nodup → List.Sublist ms l →
      ms.foldl (fun acc p => moveToLast acc p.id) l
        = l.filter (fun c => decide (c.id ∉ ms.map RBlock.id)) ++ ms := by
  induction ms with
  | nil => intro l _ _; simp
  | cons p ps ih =>
    intro l hnd hsub
    have hpmem : p ∈ l := hsub.subset (List.mem_cons_self p ps)
    have hmsnd : ((p :: ps).map RBlock.id).Nodup := (hsub.map RBlock.id).nodup hnd
    rw [List.map_cons, List.nodup_cons] at hmsnd
    have hpsne : ∀ x ∈ ps, decide (x.id ≠ p.id) = true := by
      intro x hx
      simp only [decide_eq_true_eq]
      intro he
      exact hmsnd.1 (he ▸ List.mem_map_of_mem RBlock.id hx)
    have hstep : moveToLast l p.id
        = l.filter (fun c => decide (c.id ≠ p.id)) ++ [p] := by
      rw [moveToLast, filter_id_singleton l p hpmem hnd]
    have hperm : List.Perm (l.filter (fun c => decide (c.id ≠ p.id)) ++ [p]) l := by
      rw [← filter_id_singleton l p hpmem hnd]
      have hco : (fun c : RBlock => decide (c.id = p.id))
          = fun c : RBlock => !(decide (c.id ≠ p.id)) := by
        funext c
        simp [decide_not]
      rw [hco]
      exact List.filter_append_perm _ l
    have hnd1 : ((l.filter (fun c => decide (c.id ≠ p.id)) ++ [p]).map RBlock.id).Nodup :=
      (List.Perm.nodup_iff (hperm.map RBlock.id)).mpr hnd
    have hps1 : List.Sublist ps (l.filter (fun c => decide (c.id ≠ p.id)) ++ [p]) := by
      have hpsl : List.Sublist ps l := List.sublist_of_cons_sublist hsub
      have hf : ps.filter (fun c => decide (c.id ≠ p.id)) = ps :=
        List.filter_eq_self.mpr hpsne
      have := hpsl.filter (fun c => decide (c.id ≠ p.id))
      rw [hf] at this
      exact this.trans (List.sublist_append_left _ [p])
    have hih := ih (l.filter (fun c => decide (c.id ≠ p.id)) ++ [p]) hnd1 hps1
    show List.foldl (fun acc p2 => moveToLast acc p2.id) (moveToLast l p.id) ps = _
    rw [hstep, hih, List.filter_append]
    have hp1 : ([p].filter fun c => decide (c.id ∉ ps.map RBlock.id)) = [p] := by
      have hpid : p.id ∉ ps.map RBlock.id := hmsnd.1
      simp only [List.filter_cons, List.filter_nil, decide_eq_true_eq]
      rw [if_pos hpid]
    rw [hp1, List.filter_filter]
    have hcong : l.filter (fun a => decide (a.id ∉ ps.map RBlock.id)
          && decide (a.id ≠ p.id))
        = l.filter (fun c => decide (c.id ∉ (p :: ps).map RBlock.id)) := by
      apply List.filter_congr
      intro x _
      by_cases h1 : x.id = p.id <;> by_cases h2 : x.id ∈ ps.map RBlock.id <;>
        simp [h1, h2]
    rw [hcong]
    simp

theorem pan_all_pages (l : List RBlock) (h : ∀ c ∈ l, c.type = BKind.page) :
    pagesAfterNonpages l :=
  ⟨[], l, by simp, by simp, h⟩

theorem pan_cons_nonpage (c : RBlock) (l : List RBlock) (hc : c.type ≠ BKind.page)
    (h : pagesAfterNonpages l) : pagesAfterNonpages (c :: l) := by
  obtain ⟨a, b, rfl, ha, hb⟩ := h
  refine ⟨c :: a, b, by simp, ?_, hb⟩
  intro x hx
  rcases List.mem_cons.mp hx with rfl | hx2
  · exact hc
  · exact ha x hx2

theorem pan_append_pages (A M : List RBlock) (hA : pagesAfterNonpages A)
    (hM : ∀ c ∈ M, c.type = BKind.page) : pagesAfterNonpages (A ++ M) := by
  obtain ⟨a, b, rfl, ha, hb⟩ := hA
  refine ⟨a, b ++ M, by simp, ha, ?_⟩
  intro x hx
  rcases List.mem_append.mp hx with h | h
  · exact hb x h
  · exact hM x h

theorem pan_filter (l : List RBlock) (h : pagesAfterNonpages l) (q : RBlock → Bool) :
    pagesAfterNonpages (l.filter q) := by
  obtain ⟨a, b, rfl, ha, hb⟩ := h
  refine ⟨a.filter q, b.filter q, by rw [List.filter_append], ?_, ?_⟩
  · intro x hx
    exact ha x (List.mem_of_mem_filter hx)
  · intro x hx
    exact hb x (List.mem_of_mem_filter hx)

theorem trail_filter_aux (cs : List RBlock) :
    ∀ seen : List RBlock, (∀ c ∈ seen, c.type = BKind.page) →
      (((seen ++ cs).map RBlock.id).Nodup) →
      pagesAfterNonpages ((seen ++ cs).filter
        (fun c => decide (c.id ∉ (pagesToMoveAux cs [] seen).map RBlock.id))) := by
  induction cs with
  | nil =>
    intro seen hseen _
    refine pan_all_pages _ ?_
    intro c hc
    have hc2 := List.mem_of_mem_filter hc
    rw [List.append_nil] at hc2
    exact hseen c hc2
  | cons c cs ih =>
    intro seen hseen hnd
    by_cases hp : c.type = BKind.page
    · have haux : pagesToMoveAux (c :: cs) [] seen = pagesToMoveAux cs [] (seen ++ [c]) := by
        simp only [pagesToMoveAux, if_pos hp]
      have heq : seen ++ c :: cs = (seen ++ [c]) ++ cs := by simp
      rw [haux, heq]
      refine ih (seen ++ [c]) ?_ ?_
      · intro x hx
        rcases List.mem_append.mp hx with h | h
        · exact hseen x h
        · rw [List.mem_singleton.mp h]
          exact hp
      · rw [← heq]
        exact hnd
    · have haux : pagesToMoveAux (c :: cs) [] seen
          = seen ++ pagesToMoveAux cs [] [] := by
        simp only [pagesToMoveAux, if_neg hp, List.nil_append]
        exact pagesToMoveAux_acc cs seen []
      rw [haux]
      rw [List.map_append, List.nodup_append] at hnd
      obtain ⟨hndseen, hndcons, hdisj⟩ := hnd
      rw [List.map_cons, List.nodup_cons] at hndcons
      have hsubcs : List.Sublist (pagesToMoveAux cs [] []) cs := by
        have := pagesToMoveAux_sublist cs [] []
        simpa using this
      have hf1 : seen.filter (fun x => decide
          (x.id ∉ (seen ++ pagesToMoveAux cs [] []).map RBlock.id)) = [] := by
        refine List.filter_eq_nil_iff.mpr ?_
        intro x hx
        simp only [decide_eq_true_eq, not_not, List.map_append, List.mem_append]
        exact Or.inl (List.mem_map_of_mem RBlock.id hx)
      have hf2 : decide (c.id ∉ (seen ++ pagesToMoveAux cs [] []).map RBlock.id)
          = true := by
        simp only [decide_eq_true_eq, List.map_append, List.mem_append]
        rintro (h | h)
        · exact hdisj h (by simp)
        · have := (hsubcs.map RBlock.id).subset h
          exact hndcons.1 this
      have hf3 : cs.filter (fun x => decide
            (x.id ∉ (seen ++ pagesToMoveAux cs [] []).map RBlock.id))
          = cs.filter (fun x => decide
            (x.id ∉ (pagesToMoveAux cs [] []).map RBlock.id)) := by
        apply List.filter_congr
        intro x hx
        have hxs : x.id ∉ seen.map RBlock.id := by
          intro hmem
          exact hdisj hmem (by simp [List.mem_map_of_mem RBlock.id hx])
        by_cases h2 : x.id ∈ (pagesToMoveAux cs [] []).map RBlock.id <;>
          simp [h2, hxs]
      have hsplit : (seen ++ c :: cs).filter (fun x => decide
            (x.id ∉ (seen ++ pagesToMoveAux cs [] []).map RBlock.id))
          = c :: cs.filter (fun x => decide
            (x.id ∉ (pagesToMoveAux cs [] []).map RBlock.id)) := by
        rw [List.filter_append, hf1, List.nil_append, List.filter_cons, hf2]
        rw [hf3]
        simp
      rw [hsplit]
      refine pan_cons_nonpage c _ hp ?_
      have hres := ih [] (by simp) (by simpa using hndcons.2)
      simpa using hres

/-! ## Helper lemmas: the collection row synchronizer -/

theorem writeRowProps_id (ps : List (String × String)) :
    ∀ row : CRow, (writeRowProps row ps).1.id = row.id := by
  induction ps with
  | nil => intro row; rfl
  | cons kv rest ih =>
    intro row
    obtain ⟨k, v⟩ := kv
    simp only [writeRowProps]
    split
    · exact ih row
    · exact ih _

theorem writeRowProps_log (ps : List (String × String)) :
    ∀ row : CRow, ∀ m ∈ (writeRowProps row ps).2,
      ∃ rid k ov nv, m = Mut.setRowProp rid k ov nv
        ∧ k ∈ ps.map Prod.fst ∧ ov ≠ nv := by
  induction ps with
  | nil => intro row m hm; simp [writeRowProps] at hm
  | cons kv rest ih =>
    intro row m hm
    obtain ⟨k, v⟩ := kv
    simp only [writeRowProps] at hm
    rw [List.mem_append] at hm
    rcases hm with hm | hm
    · by_cases hcond : lookupProp row.props k = some v
      · rw [if_pos hcond] at hm
        simp at hm
      · rw [if_neg hcond] at hm
        simp only [List.mem_singleton] at hm
        subst hm
        exact ⟨row.id, k, lookupProp row.props k, some v, rfl, by simp, hcond⟩
    · obtain ⟨rid, k2, ov, nv, he, hk, hne⟩ := ih _ m hm
      exact ⟨rid, k2, ov, nv, he, List.mem_cons_of_mem _ hk, hne⟩

theorem writeRowProps_no_addRow (ps : List (String × String)) (row : CRow) :
    ((writeRowProps row ps).2).filter Mut.isAddRow = [] := by
  refine List.filter_eq_nil_iff.mpr ?_
  intro m hm
  obtain ⟨rid, k, ov, nv, he, _, _⟩ := writeRowProps_log ps row m hm
  subst he
  simp [Mut.isAddRow]

theorem syncRowsLoop_length (ids : List String) (rs : List (List String)) :
    ∀ existing fresh, (syncRowsLoop ids rs existing fresh).1.length = rs.length := by
  induction rs with
  | nil => intro existing fresh; rfl
  | cons r rs ih =>
    intro existing fresh
    simp only [syncRowsLoop, List.length_cons]
    rw [ih]

theorem syncRowsLoop_ids (ids : List String) (rs : List (List String)) :
    ∀ existing fresh p, p < rs.length → p < existing.length →
      ((syncRowsLoop ids rs existing fresh).1[p]?).map CRow.id
        = (existing[p]?).map CRow.id := by
  induction rs with
  | nil => intro existing fresh p h1 _; simp at h1
  | cons r rs ih =>
    intro existing fresh p h1 h2
    cases existing with
    | nil => simp at h2
    | cons e es =>
      cases p with
      | zero =>
        simp only [syncRowsLoop, List.getElem?_cons_zero, Option.map_some']
        rw [writeRowProps_id]
      | succ p2 =>
        simp only [syncRowsLoop, List.getElem?_cons_succ]
        exact ih es _ p2 (Nat.lt_of_succ_lt_succ h1) (Nat.lt_of_succ_lt_succ h2)

theorem syncRowsLoop_log (ids : List String) (rs : List (List String)) :
    ∀ existing fresh, ∀ m ∈ (syncRowsLoop ids rs existing fresh).2.2,
      (∃ i, m = Mut.addRow i)
      ∨ ∃ rid k ov nv, m = Mut.setRowProp rid k ov nv ∧ k ∈ ids ∧ ov ≠ nv := by
  induction rs with
  | nil => intro existing fresh m hm; simp [syncRowsLoop] at hm
  | cons r rs ih =>
    intro existing fresh m hm
    simp only [syncRowsLoop] at hm
    rw [List.mem_append, List.mem_append] at hm
    rcases hm with (hm | hm) | hm
    · cases existing with
      | cons e es => simp at hm
      | nil =>
        simp only [List.mem_singleton] at hm
        exact Or.inl ⟨fresh, hm⟩
    · obtain ⟨rid, k, ov, nv, he, hk, hne⟩ := writeRowProps_log _ _ m hm
      refine Or.inr ⟨rid, k, ov, nv, he, ?_, hne⟩
      obtain ⟨⟨ka, vb⟩, hpair, hfst⟩ := List.mem_map.mp hk
      have hin := (List.of_mem_zip hpair).1
      exact hfst ▸ hin
    · exact ih _ _ m hm

theorem syncRowsLoop_no_removeRow (ids : List String) (rs : List (List String))
    (existing : List CRow) (fresh : Nat) :
    ((syncRowsLoop ids rs existing fresh).2.2).filter Mut.isRemoveRow = [] := by
  refine List.filter_eq_nil_iff.mpr ?_
  intro m hm
  rcases syncRowsLoop_log ids rs existing fresh m hm with ⟨i, rfl⟩ | ⟨rid, k, ov, nv, rfl, _, _⟩ <;>
    simp [Mut.isRemoveRow]

theorem syncRowsLoop_addRow_count (ids : List String) (rs : List (List String)) :
    ∀ existing fresh,
      (((syncRowsLoop ids rs existing fresh).2.2).filter Mut.isAddRow).length
        = rs.length - existing.length := by
  induction rs with
  | nil => intro existing fresh; simp [syncRowsLoop]
  | cons r rs ih =>
    intro existing fresh
    cases existing with
    | nil =>
      simp only [syncRowsLoop, List.filter_append, List.length_append,
        writeRowProps_no_addRow, List.length_nil]
      have h1 : ([Mut.addRow fresh].filter Mut.isAddRow).length = 1 := rfl
      rw [h1, ih]
      simp only [List.drop_nil, List.length_nil, List.length_cons]
      omega
    | cons e es =>
      simp only [syncRowsLoop, List.filter_append, List.length_append,
        writeRowProps_no_addRow, List.length_nil]
      have h1 : (([] : List Mut).filter Mut.isAddRow).length = 0 := rfl
      rw [h1, ih]
      simp only [List.drop_succ_cons, List.drop_zero, List.length_cons]
      omega

theorem syncCollectionSchema_rows (bid : Nat) (c : Collection)
    (exp : List (String × SchemaCol)) :
    (syncCollectionSchema bid c exp).1.rows = c.rows := by
  unfold syncCollectionSchema
  split <;> rfl

theorem syncCollectionSchema_log (bid : Nat) (c : Collection)
    (exp : List (String × SchemaCol)) :
    ∀ m ∈ (syncCollectionSchema bid c exp).2, m = Mut.setSchema bid := by
  unfold syncCollectionSchema
  split
  · intro m hm
    simp at hm
  · intro m hm
    simpa using hm

/-! ## Claims -/

/-- C7: merging adjacent identically-styled runs is idempotent
(`merge_adjacent(merge_adjacent(x)) == merge_adjacent(x)`), and in the merged
output no two consecutive runs share an identical style set. -/
theorem c7_merge_adjacent_idempotent (x : List NToken) :
    mergeAdjacentTokens (mergeAdjacentTokens x) = mergeAdjacentTokens x
    ∧ List.Chain' (fun a b => a.styles ≠ b.styles) (mergeAdjacentTokens x) := by
  have hchain : List.Chain' (fun a b => a.styles ≠ b.styles) (mergeAdjacentTokens x) := by
    cases x with
    | nil => simp [mergeAdjacentTokens]
    | cons t ts => exact mergeAdjacentGo_chain ts t
  refine ⟨?_, hchain⟩
  cases hx : mergeAdjacentTokens x with
  | nil => rfl
  | cons t ts =>
    rw [hx] at hchain
    simpa [mergeAdjacentTokens] using mergeAdjacentGo_of_chain ts t hchain

/-- C9: heading levels 1-3 map 1:1 to the three heading block kinds, every
level above 3 is clamped to a level-3 heading block, and in particular a
level-6 heading renders as a level-3 heading block. -/
theorem c9_heading_clamp :
    (∀ cs : List MDBlock,
      (renderHeading 1 cs).head?.map MDBlock.type = some BKind.header ∧
      (renderHeading 2 cs).head?.map MDBlock.type = some BKind.subheader ∧
      (renderHeading 3 cs).head?.map MDBlock.type = some BKind.subsubheader) ∧
    (∀ (level : Nat) (cs : List MDBlock), 3 < level →
      (renderHeading level cs).head?.map MDBlock.type = some BKind.subsubheader) ∧
    (convert (.document [.heading 6 [.rawText "T"]])).map MDBlock.type
      = [BKind.subsubheader] := by
  refine ⟨fun cs => ⟨rfl, rfl, rfl⟩, ?_, rfl⟩
  intro level cs h
  have h4 : (if level > 3 then 3 else level) = 3 := if_pos h
  have ht : headingBlockType level = BKind.subsubheader := by
    simp only [headingBlockType, h4]
  simp [renderHeading, collectNotionText, ht, MDBlock.type]

/-- C9 witness: the clamp clause applied at level 4 with no children. -/
theorem c9_heading_clamp_witness :
    (renderHeading 4 []).head?.map MDBlock.type = some BKind.subsubheader :=
  c9_heading_clamp.2.1 4 [] (by decide)

/-- C3: column identifiers are `title` at index 0 and `x` plus the
zero-padded (4-digit) lowercase hexadecimal encoding of `i - 1` at index
`i ≥ 1`; the `Name | Age` / `Alice | 30` table produces schema names
`Name, Age`, column ids `title, x0000` and the single row `Alice, 30`. -/
theorem c3_collection_column_ids :
    (∀ n : Nat, (collectionSchemaIds n)[0]? = some "title") ∧
    (∀ n i : Nat, 1 ≤ i → i < n →
      (collectionSchemaIds n)[i]? = some ("x" ++ formatHexPad4 (i - 1)) ∧
      (i ≤ 65536 → (formatHexPad4 (i - 1)).length = 4)) ∧
    (convert (.document [.table
        (.tableRow [.tableCell [.rawText "Name"], .tableCell [.rawText "Age"]])
        [.tableRow [.tableCell [.rawText "Alice"], .tableCell [.rawText "30"]]]])
      = [.mk .collectionView [] [] [⟨"Name", "text"⟩, ⟨"Age", "text"⟩]
          [["Alice", "30"]] []]) ∧
    collectionSchemaIds 2 = ["title", "x0000"] := by
  refine ⟨fun n => by simp [collectionSchemaIds], ?_, rfl, rfl⟩
  intro n i h1 h2
  obtain ⟨j, rfl⟩ : ∃ j, i = j + 1 := ⟨i - 1, (Nat.succ_pred_eq_of_pos h1).symm⟩
  constructor
  · simp only [collectionSchemaIds, List.getElem?_cons_succ, List.getElem?_map,
      List.getElem?_range (by omega : j < n - 1), Option.map_some']
    simp
  · intro hle
    have hlen : (hexDigits j).length ≤ 4 := hexDigits_length_le j (by omega)
    have hj : j + 1 - 1 = j := by omega
    rw [hj]
    show (String.mk (List.replicate (4 - (hexDigits j).length) '0' ++ hexDigits j)).length = 4
    simp only [String.length, List.length_append, List.length_replicate]
    omega

/-- C3 witness: ids of a three-column schema at index 2. -/
theorem c3_collection_column_ids_witness :
    (collectionSchemaIds 3)[2]? = some ("x" ++ formatHexPad4 1) :=
  (c3_collection_column_ids.2.1 3 2 (by decide) (by decide)).1

/-- C1: the `resolve_link` closure defined in `sync_file_to_block` would map a
schemeless relative target onto the mapped page's browsable URL (and passes a
schemeful target through), but the rendering pipeline never applies it: the
`markdown.py` source's `convert` takes no resolver and `render_link` emits the
raw token target, so the anchor style carries `./other.md` unchanged even
though the mapping resolves it to a different URL. -/
theorem c1_render_link_ignores_resolver :
    resolveLink "/docs/file.md" [("/docs/other.md", "https://www.notion.so/x")] "./other.md"
      = "https://www.notion.so/x"
    ∧ resolveLink "/docs/file.md" [("/docs/other.md", "https://www.notion.so/x")]
        "https://example.com" = "https://example.com"
    ∧ convert (.document [.paragraph [.link [.rawText "x"] "./other.md"]])
      = [.mk .text [⟨"x", [["a", "./other.md"]]⟩] [] [] [] []]
    ∧ ("./other.md" : String) ≠ "https://www.notion.so/x" := by
  exact ⟨rfl, rfl, rfl, by decide⟩

/-- C2: on a case-sensitive filesystem a directory whose only entry is
`readme.md` (or `ReadMe.md`) is mapped to nothing at all — the prelude only
tests the exact path `README.md` (the source's `readme_lower_path` is also
built from `"README.md"`) while the listing loop skips every case variant —
whereas an exact `README.md` does map to the directory's own page. -/
theorem c2_readme_variants_dropped :
    (createPageStructure "/d" [.file "readme.md" [helloBlock]] root0 1).1 = []
    ∧ (createPageStructure "/d" [.file "ReadMe.md" [helloBlock]] root0 1).1 = []
    ∧ (createPageStructure "/d" [.file "README.md" [helloBlock]] root0 1).1
      = [("/d/README.md", [helloBlock], 0)]
    ∧ (createPageStructure "/d" [.file "readme.md" [helloBlock]] root0 1).2.2.2 = [] := by
  exact ⟨rfl, rfl, rfl, rfl⟩

/-- C6: the second run of the full directory sync on an unchanged tree is not
mutation-free: with an `index.md` and an empty subdirectory, the first run
creates the subdirectory's page and then prunes it (its id is missing from the
touched set recomputed from `files_to_pages` alone), so the second run creates
it again and prunes it again — two remote mutations. -/
theorem c6_second_run_mutates :
    (syncDirectoryToBlock "e" "/d" dirWithEmptySubdir
        (syncDirectoryToBlock "e" "/d" dirWithEmptySubdir root0 1).1
        (syncDirectoryToBlock "e" "/d" dirWithEmptySubdir root0 1).2.1).2.2
      = [Mut.createPage 3 "Empty", Mut.removeBlock 3]
    ∧ (syncDirectoryToBlock "e" "/d" dirWithEmptySubdir
        (syncDirectoryToBlock "e" "/d" dirWithEmptySubdir root0 1).1
        (syncDirectoryToBlock "e" "/d" dirWithEmptySubdir root0 1).2.1).2.2 ≠ [] := by
  refine ⟨rfl, ?_⟩
  intro h
  exact absurd (congrArg List.length h) (by decide)

/-- C10: an entry whose stem is exactly `index` resolves to the parent's own
page — no extension filter, no page creation — so `index.txt` is accepted and
an `index` subdirectory recurses with the parent page as its target, mapping
its contents onto the parent page. -/
theorem c10_index_stem_maps_to_parent :
    (∀ (parent : RBlock) (path : String) (fresh : Nat),
      (splitext path).1 = "index" →
      inferBlock parent path fresh = (some parent.id, parent, fresh, []))
    ∧ (splitext "index.txt").1 = "index"
    ∧ (splitext "index").1 = "index"
    ∧ inferBlock root0 "index.txt" 5 = (some 0, root0, 5, [])
    ∧ createPageStructure "/d" [.dir "index" [.file "index.md" [helloBlock]]] root0 1
      = ([("/d/index/index.md", [helloBlock], 0)], root0, 1, []) := by
  refine ⟨?_, rfl, rfl, rfl, rfl⟩
  intro parent path fresh h
  simp only [inferBlock, h]
  rfl

/-- C10 witness: the stem rule applied to the bare name `index`. -/
theorem c10_index_stem_maps_to_parent_witness :
    inferBlock root0 "index" 7 = (some root0.id, root0, 7, []) :=
  c10_index_stem_maps_to_parent.1 root0 "index" 7 (by decide)

/-- C4: after `sync_markdown_blocks_to_block`, every page-kind child of the
parent that existed before the call still exists (same id, still page-kind),
and every non-page child present afterwards has its id in the touched set —
equivalently, every non-page child not recorded as touched was removed. -/
theorem c4_reconciler_preserves_pages (targets : List MDBlock) (children : List RBlock)
    (fresh : Nat) :
    (∀ c ∈ children, c.type = BKind.page →
      ∃ c2, c2 ∈ (syncBlocks targets children fresh).1 ∧ c2.id = c.id
        ∧ c2.type = BKind.page)
    ∧ (∀ c2 ∈ (syncBlocks targets children fresh).1, c2.type ≠ BKind.page →
        c2.id ∈ (syncBlocks targets children fresh).2.1) := by
  have hmap : ((syncLoop targets (initSt children fresh)).done
      ++ (syncLoop targets (initSt children fresh)).cursor).map idType
      = children.map idType := by
    rw [syncLoop_done_cursor]
    simp [initSt]
  constructor
  · intro c hc hpage
    have hmem : idType c ∈ ((syncLoop targets (initSt children fresh)).done
        ++ (syncLoop targets (initSt children fresh)).cursor).map idType := by
      rw [hmap]
      exact List.mem_map_of_mem idType hc
    obtain ⟨c2, hc2, he⟩ := List.mem_map.mp hmem
    have hid : c2.id = c.id := congrArg Prod.fst he
    have hty : c2.type = BKind.page := (congrArg Prod.snd he).trans hpage
    refine ⟨c2, ?_, hid, hty⟩
    show c2 ∈ (finishLevel (syncLoop targets (initSt children fresh))).1
    simp only [finishLevel]
    apply List.mem_filter.mpr
    refine ⟨List.mem_append_left _ hc2, ?_⟩
    simp [hty]
  · intro c2 h2 hnp
    have h3 : c2 ∈ (finishLevel (syncLoop targets (initSt children fresh))).1 := h2
    simp only [finishLevel] at h3
    have h4 := (List.mem_filter.mp h3).2
    rw [decide_eq_true_eq] at h4
    rcases h4 with hpg | ht
    · exact absurd hpg hnp
    · exact ht

/-- C4 witness: an empty target list keeps a lone page child. -/
theorem c4_reconciler_preserves_pages_witness :
    ∃ c2, c2 ∈ (syncBlocks [] [demoPage] 5).1 ∧ c2.id = demoPage.id
      ∧ c2.type = BKind.page :=
  (c4_reconciler_preserves_pages [] [demoPage] 5).1 demoPage
    (List.mem_singleton.mpr rfl) rfl

/-- C5: after `move_pages_to_end`, every page-kind child is ordered after all
non-page-kind children, the relative order among non-page children is
preserved, and the ordering survives any subsequent filtering (in particular
the page-prune step of `sync_directory_to_block`). -/
theorem c5_pages_trail_after_move (children : List RBlock)
    (hnd : (children.map RBlock.id).Nodup) :
    pagesAfterNonpages (movePagesToEnd children).1
    ∧ (movePagesToEnd children).1.filter (fun c => decide (c.type ≠ BKind.page))
        = children.filter (fun c => decide (c.type ≠ BKind.page))
    ∧ ∀ q : RBlock → Bool, pagesAfterNonpages ((movePagesToEnd children).1.filter q) := by
  have hsub : List.Sublist (pagesToMove children) children := by
    have h1 := pagesToMoveAux_sublist children [] []
    simpa [pagesToMove] using h1
  have hpages : ∀ b ∈ pagesToMove children, b.type = BKind.page :=
    pagesToMoveAux_pages children [] [] (by simp) (by simp)
  have hchar : (movePagesToEnd children).1
      = children.filter (fun c => decide (c.id ∉ (pagesToMove children).map RBlock.id))
        ++ pagesToMove children := by
    exact moveFold_eq (pagesToMove children) children hnd hsub
  have htrail : pagesAfterNonpages (children.filter
      (fun c => decide (c.id ∉ (pagesToMove children).map RBlock.id))) := by
    have h2 := trail_filter_aux children [] (by simp) (by simpa using hnd)
    simpa [pagesToMove] using h2
  have hpan : pagesAfterNonpages (movePagesToEnd children).1 := by
    rw [hchar]
    exact pan_append_pages _ _ htrail hpages
  refine ⟨hpan, ?_, fun q => pan_filter _ hpan q⟩
  rw [hchar, List.filter_append]
  have h2 : (pagesToMove children).filter (fun c => decide (c.type ≠ BKind.page)) = [] :=
    List.filter_eq_nil_iff.mpr (fun b hb => by simp [hpages b hb])
  rw [h2, List.append_nil, List.filter_filter]
  apply List.filter_congr
  intro x hx
  by_cases hxp : x.type = BKind.page
  · simp [hxp]
  · have hxid : x.id ∉ (pagesToMove children).map RBlock.id := by
      intro hmem
      obtain ⟨b, hb, hbid⟩ := List.mem_map.mp hmem
      have hbin : b ∈ children := hsub.subset hb
      have hbeq : b = x := List.inj_on_of_nodup_map hnd hbin hx hbid
      exact hxp (hbeq ▸ hpages b hb)
    simp [hxp, hxid]

/-- C5 witness: a page followed by a text block, with distinct ids. -/
theorem c5_pages_trail_after_move_witness :
    pagesAfterNonpages (movePagesToEnd [demoPage, demoText]).1 :=
  (c5_pages_trail_after_move [demoPage, demoText] (by decide)).1

/-- C8: for a block with an attached collection, the row synchronizer keeps
exactly one row per target row (reusing the existing row at each position,
creating the missing ones), removes exactly the trailing existing rows beyond
the target count, and every property write targets a schema column id (the
zip truncates each row to the ids) and happens only when the stored value
differs. -/
theorem c8_collection_row_alignment (b : RBlock) (c : Collection)
    (schema : List SchemaCol) (rows : List (List String)) (fresh : Nat)
    (hc : b.collection = some c) :
    ∃ c2, (syncCollectionRows b schema rows fresh).1.collection = some c2
      ∧ c2.rows.length = rows.length
      ∧ (∀ p, p < rows.length → p < c.rows.length →
          (c2.rows[p]?).map CRow.id = (c.rows[p]?).map CRow.id)
      ∧ (syncCollectionRows b schema rows fresh).2.2.filter Mut.isRemoveRow
          = (c.rows.drop rows.length).map (fun r => Mut.removeRow r.id)
      ∧ ((syncCollectionRows b schema rows fresh).2.2.filter Mut.isAddRow).length
          = rows.length - c.rows.length
      ∧ ∀ m ∈ (syncCollectionRows b schema rows fresh).2.2, ∀ rid k ov nv,
          m = Mut.setRowProp rid k ov nv →
          k ∈ collectionSchemaIds schema.length ∧ ov ≠ nv := by
  simp only [syncCollectionRows, hc, RBlock.collection_setCollection,
    List.nil_append, syncCollectionSchema_rows]
  refine ⟨_, rfl, ?_, ?_, ?_, ?_, ?_⟩
  · simp [syncRowsLoop_length]
  · intro p h1 h2
    simp only
    rw [syncRowsLoop_ids _ _ _ _ p h1 (by rw [List.length_take]; omega)]
    rw [List.getElem?_take, if_pos h1]
  · rw [List.filter_append, List.filter_append, syncRowsLoop_no_removeRow,
      List.append_nil]
    have hsc : List.filter Mut.isRemoveRow
        (syncCollectionSchema b.id c
          ((collectionSchemaIds schema.length).zip schema)).2 = [] := by
      refine List.filter_eq_nil_iff.mpr ?_
      intro m hm
      rw [syncCollectionSchema_log _ _ _ m hm]
      simp [Mut.isRemoveRow]
    rw [hsc, List.nil_append, List.filter_map]
    have hall : (c.rows.drop rows.length).filter
        (Mut.isRemoveRow ∘ fun r => Mut.removeRow r.id) = c.rows.drop rows.length :=
      List.filter_eq_self.mpr (fun x _ => rfl)
    rw [hall]
  · rw [List.filter_append, List.filter_append, List.length_append,
      List.length_append, syncRowsLoop_addRow_count]
    have h1 : (List.filter Mut.isAddRow
        (syncCollectionSchema b.id c
          ((collectionSchemaIds schema.length).zip schema)).2).length = 0 := by
      rw [List.length_eq_zero]
      refine List.filter_eq_nil_iff.mpr ?_
      intro m hm
      rw [syncCollectionSchema_log _ _ _ m hm]
      simp [Mut.isAddRow]
    have h2 : (List.filter Mut.isAddRow
        ((c.rows.drop rows.length).map fun r => Mut.removeRow r.id)).length = 0 := by
      rw [List.length_eq_zero]
      refine List.filter_eq_nil_iff.mpr ?_
      intro m hm
      obtain ⟨r, _, he⟩ := List.mem_map.mp hm
      rw [← he]
      simp [Mut.isAddRow]
    rw [h1, h2, List.length_take]
    omega
  · intro m hm rid k ov nv he
    subst he
    rw [List.mem_append, List.mem_append] at hm
    rcases hm with (hm | hm) | hm
    · have h3 := syncCollectionSchema_log _ _ _ _ hm
      simp at h3
    · obtain ⟨r, _, he2⟩ := List.mem_map.mp hm
      simp at he2
    · rcases syncRowsLoop_log _ _ _ _ _ hm with ⟨i, he2⟩ | ⟨rid2, k2, ov2, nv2, he2, hk2, hne2⟩
      · simp at he2
      · injection he2 with h1 h2 h3 h4
        subst h2
        subst h3
        subst h4
        exact ⟨hk2, hne2⟩

/-- C8 witness: a collection with one stored row, one target row, one
column. -/
theorem c8_collection_row_alignment_witness :
    ∃ c2, (syncCollectionRows demoCollectionBlock [⟨"N", "text"⟩] [["B"]] 20).1.collection
        = some c2
      ∧ c2.rows.length = 1
      ∧ (∀ p, p < 1 → p < demoCollection.rows.length →
          (c2.rows[p]?).map CRow.id = (demoCollection.rows[p]?).map CRow.id)
      ∧ (syncCollectionRows demoCollectionBlock [⟨"N", "text"⟩] [["B"]] 20).2.2.filter
          Mut.isRemoveRow
          = (demoCollection.rows.drop 1).map (fun r => Mut.removeRow r.id)
      ∧ ((syncCollectionRows demoCollectionBlock [⟨"N", "text"⟩] [["B"]] 20).2.2.filter
          Mut.isAddRow).length = 1 - demoCollection.rows.length
      ∧ ∀ m ∈ (syncCollectionRows demoCollectionBlock [⟨"N", "text"⟩] [["B"]] 20).2.2,
          ∀ rid k ov nv, m = Mut.setRowProp rid k ov nv →
          k ∈ collectionSchemaIds 1 ∧ ov ≠ nv :=
  c8_collection_row_alignment demoCollectionBlock demoCollection
    [⟨"N", "text"⟩] [["B"]] 20 rfl

end NotionDocsSync
